import Mathlib

/-!
Verification of the CarTuning map-visualization pipeline.

The repository ships a TypeScript frontend (`maplab-frontend`):
`mapTransform.ts` (reshapeGrid, transformToPlotlySurface) and
`mapService.ts` (ParsedMapResponse, parseMapFile).  The backend that the
spec calls the Tidy-Table Normalizer and the Grid Interpolation Engine is
not part of the available sources; it is modelled here from the spec
(§3, §4.1, §4.2), with each such definition marked `Modelled from the spec`.

Numeric values (spec "real", JS `number`) are embedded as `ℚ`, so every
definition is executable and exact; machine-float rounding is out of scope
(the spec itself only asks for "floating-point round-trip tolerance", which
degenerates to exact equality in an exact field).  Array indices are `ℕ`.
-/

set_option maxRecDepth 100000

namespace CarTuning

/-! ## Frontend data model (`mapService.ts`, real code) -/

/-- Shape record of `ParsedMapResponse` (`{ rows: number; cols: number }`). -/
structure Shape where
  rows : ℕ
  cols : ℕ
deriving DecidableEq, Repr

/-- The `ParsedMapResponse` type from `mapService.ts`. -/
structure ParsedMapResponse where
  rpm_axis : List ℚ
  load_axis : List ℚ
  z_grid_flat : List ℚ
  shape : Shape
  total_points : ℕ
deriving DecidableEq, Repr

/-- The `PlotlySurfaceData` type from `mapTransform.ts`.  The JS field
`type` is rendered `plotType` (`type` clashes with Lean's keyword); the
nested `colorbar.title` is flattened to `colorbarTitle`. -/
structure PlotlySurfaceData where
  x : List ℚ
  y : List ℚ
  z : List (List ℚ)
  plotType : String
  colorscale : String
  colorbarTitle : String
deriving DecidableEq, Repr

/-! ## `reshapeGrid` (`mapTransform.ts`, real code)

The TS loop pushes `flat.slice(i * cols, (i + 1) * cols)` for
`i = 0 .. rows-1`.  JS `slice` clamps both ends at the array length, which
is exactly `(flat.drop (i * cols)).take cols` on lists. -/

/-- `reshapeGrid` from `mapTransform.ts`: reshape a flattened grid array
back into a 2D grid of `rows` slices of width `cols`. -/
def reshapeGrid (flat : List ℚ) (rows cols : ℕ) : List (List ℚ) :=
  (List.range rows).map (fun i => (flat.drop (i * cols)).take cols)

/-- `transformToPlotlySurface` from `mapTransform.ts`. -/
def transformToPlotlySurface (mapData : ParsedMapResponse) : PlotlySurfaceData :=
  { x := mapData.rpm_axis
    y := mapData.load_axis
    z := reshapeGrid mapData.z_grid_flat mapData.shape.rows mapData.shape.cols
    plotType := "surface"
    colorscale := "Viridis"
    colorbarTitle := "Timing (degrees)" }

/-! ## `parseMapFile` (`mapService.ts`, real code)

The HTTP exchange itself is an external effect; what the source decides is
the classification of the outcome in the `catch` block.  `UploadOutcome`
enumerates the runtime situations that block distinguishes:
`error.response` present (HTTP error, carrying an optional string `detail`
in the body — `none` models an absent/non-string field), `error.request`
present without a response (network failure), an axios error with neither
(request setup failure, rethrown as-is), and a non-axios throwable
(rethrown when it is an `Error` instance, else wrapped as "Unknown error
occurred").  JS `detail || fallback` treats the empty string as falsy,
which the model reproduces. -/

inductive UploadOutcome where
  | success (payload : ParsedMapResponse)
  | axiosHttpError (status : ℕ) (detail : Option String)
  | axiosNetworkError
  | axiosSetupError (message : String)
  | nonAxiosThrown (message : String) (isErrorInstance : Bool)
deriving DecidableEq

/-- The result of `parseMapFile` as a function of the transport outcome:
`.ok` is the resolved promise, `.error` carries the thrown `Error` message. -/
def parseMapFile : UploadOutcome → Except String ParsedMapResponse
  | .success payload => .ok payload
  | .axiosHttpError status detail =>
      match detail with
      | some d => if d = "" then .error ("Server error: " ++ toString status) else .error d
      | none => .error ("Server error: " ++ toString status)
  | .axiosNetworkError => .error "Network error: Could not reach the backend server"
  | .axiosSetupError message => .error message
  | .nonAxiosThrown message isErrorInstance =>
      if isErrorInstance then .error message else .error "Unknown error occurred"

/-! ## Helper lemmas on `reshapeGrid` -/

theorem length_reshapeGrid (flat : List ℚ) (rows cols : ℕ) :
    (reshapeGrid flat rows cols).length = rows := by
  simp [reshapeGrid]

theorem getElem_reshapeGrid (flat : List ℚ) (rows cols i : ℕ) (hi : i < rows) :
    (reshapeGrid flat rows cols).getD i [] = (flat.drop (i * cols)).take cols := by
  have hlen : i < (reshapeGrid flat rows cols).length := by
    rw [length_reshapeGrid]; exact hi
  rw [List.getD_eq_getElem?_getD, List.getElem?_eq_getElem hlen]
  simp [reshapeGrid]

theorem reshapeGrid_row_length (flat : List ℚ) (rows cols i : ℕ) (hi : i < rows) :
    ((reshapeGrid flat rows cols).getD i []).length = min cols (flat.length - i * cols) := by
  rw [getElem_reshapeGrid flat rows cols i hi]
  simp

theorem flatten_reshapeGrid (flat : List ℚ) (rows cols : ℕ) :
    (reshapeGrid flat rows cols).flatten = flat.take (rows * cols) := by
  induction rows with
  | zero => simp [reshapeGrid]
  | succ n ih =>
      have : reshapeGrid flat (n + 1) cols =
          reshapeGrid flat n cols ++ [(flat.drop (n * cols)).take cols] := by
        simp [reshapeGrid, List.range_succ]
      rw [this, List.flatten_append, ih]
      simp [Nat.succ_mul, List.take_add]

theorem reshapeGrid_entry (flat : List ℚ) (rows cols i j : ℕ)
    (hi : i < rows) (hj : j < cols) (hidx : i * cols + j < flat.length) :
    ((reshapeGrid flat rows cols).getD i []).getD j 0 = flat.getD (i * cols + j) 0 := by
  rw [getElem_reshapeGrid flat rows cols i hi]
  have hjlen : j < ((flat.drop (i * cols)).take cols).length := by
    simp only [List.length_take, List.length_drop]
    exact lt_min hj (by omega)
  rw [List.getD_eq_getElem?_getD, List.getElem?_eq_getElem hjlen,
    List.getElem_take, List.getElem_drop,
    List.getD_eq_getElem?_getD, List.getElem?_eq_getElem hidx]

/-! ## Tidy-Table Normalizer (spec §3, §4.1)

Modelled from the spec: the backend normalizer is not among the available
sources.  A raw row carries the coerced `RPM`, `Load` and `Timing` columns;
`none` stands for a missing / non-numeric / non-finite cell (string-level
coercion is the table reader's concern, outside this model).  The
`ObservationSet` is an association list keyed by `(rpm, load)` with unique
keys; its entry order is first-insertion order, which is irrelevant to
every property proved below. -/

/-- A raw tidy row after scalar coercion. `none` = non-numeric/missing. -/
structure RawRow where
  rpm : Option ℚ
  load : Option ℚ
  timing : Option ℚ
deriving DecidableEq

/-- An ObservationSet entry: `((rpm, load), timing)`. -/
abbrev ObsEntry := (ℚ × ℚ) × ℚ

/-- Modelled from the spec: whether the ObservationSet already holds key `k`. -/
def hasKey (k : ℚ × ℚ) (obs : List ObsEntry) : Bool :=
  obs.any (fun e => decide (e.1 = k))

/-- Modelled from the spec (§3 ObservationSet): insert `(k, t)`; a later row
with an identical key replaces the earlier row's timing (last-write-wins). -/
def upsert (k : ℚ × ℚ) (t : ℚ) : List ObsEntry → List ObsEntry
  | [] => [(k, t)]
  | e :: rest => if e.1 = k then (k, t) :: rest else e :: upsert k t rest

/-- Lookup of a key's timing in the ObservationSet. -/
def lookupObs (k : ℚ × ℚ) (obs : List ObsEntry) : Option ℚ :=
  (obs.find? (fun e => decide (e.1 = k))).map (fun e => e.2)

/-- Normalizer state: the ObservationSet plus the diagnostic counters of
spec §4.1 (total_rows_seen, rows_dropped_missing_value, rows_deduplicated). -/
structure NormState where
  obs : List ObsEntry
  total_rows_seen : ℕ
  rows_dropped_missing_value : ℕ
  rows_deduplicated : ℕ
deriving DecidableEq

/-- Modelled from the spec (§4.1): process one row.  Non-numeric RPM/Load
fails the row (skip, do not abort); missing Timing drops the row and counts
it; a surviving row is upserted, bumping the duplicate counter when its key
is already present. -/
def normRow (s : NormState) (r : RawRow) : NormState :=
  match r.rpm, r.load with
  | some rpm, some load =>
      match r.timing with
      | some t =>
          { s with
            obs := upsert (rpm, load) t s.obs
            total_rows_seen := s.total_rows_seen + 1
            rows_deduplicated :=
              s.rows_deduplicated + (if hasKey (rpm, load) s.obs then 1 else 0) }
      | none =>
          { s with
            total_rows_seen := s.total_rows_seen + 1
            rows_dropped_missing_value := s.rows_dropped_missing_value + 1 }
  | _, _ => { s with total_rows_seen := s.total_rows_seen + 1 }

/-- Modelled from the spec (§4.1): fold the raw rows into an ObservationSet
with counters (the `EmptyInputError` / `MissingColumnError` wrapper is a
separate fatal check downstream of this fold and carries no grid data). -/
def normalize (rows : List RawRow) : NormState :=
  rows.foldl normRow ⟨[], 0, 0, 0⟩

/-! ## Axis derivation (spec §3 Axis, §4.2 step 1)

Modelled from the spec: an axis is the ascending sort of the distinct
values along one dimension.  `insertAxis` inserts into a `<`-sorted list,
ignoring values already present. -/

/-- Insert one value into a strictly sorted ascending list, skipping duplicates. -/
def insertAxis (x : ℚ) : List ℚ → List ℚ
  | [] => [x]
  | y :: ys =>
      if x < y then x :: y :: ys
      else if x = y then y :: ys
      else y :: insertAxis x ys

/-- Modelled from the spec: the sorted set of distinct values of a list. -/
def axisOf (vals : List ℚ) : List ℚ :=
  vals.foldr insertAxis []

theorem mem_insertAxis (x a : ℚ) (l : List ℚ) :
    a ∈ insertAxis x l ↔ a = x ∨ a ∈ l := by
  induction l with
  | nil => simp [insertAxis]
  | cons y ys ih =>
      by_cases h1 : x < y
      · simp [insertAxis, h1]
      · by_cases h2 : x = y
        · subst h2
          simp only [insertAxis, h1, if_false, if_pos rfl]
          constructor
          · intro h; right; exact h
          · rintro (rfl | h)
            · exact List.mem_cons_self _ _
            · exact h
        · simp only [insertAxis, h1, if_false, h2, List.mem_cons, ih]
          tauto

theorem sorted_insertAxis (x : ℚ) (l : List ℚ) (hl : l.Sorted (· < ·)) :
    (insertAxis x l).Sorted (· < ·) := by
  induction l with
  | nil => simp [insertAxis]
  | cons y ys ih =>
      have hys : ys.Sorted (· < ·) := hl.of_cons
      have hy : ∀ b ∈ ys, y < b := fun b hb => (List.sorted_cons.mp hl).1 b hb
      by_cases h1 : x < y
      · simp only [insertAxis, if_pos h1]
        exact List.sorted_cons.mpr ⟨fun b hb => by
          rcases List.mem_cons.mp hb with rfl | hb
          · exact h1
          · exact h1.trans (hy b hb), hl⟩
      · by_cases h2 : x = y
        · simpa [insertAxis, h1, h2] using hl
        · have hyx : y < x := lt_of_le_of_ne (not_lt.mp h1) (Ne.symm h2)
          simp only [insertAxis, if_neg h1, if_neg h2]
          exact List.sorted_cons.mpr ⟨fun b hb => by
            rcases (mem_insertAxis x b ys).mp hb with rfl | hb
            · exact hyx
            · exact hy b hb, ih hys⟩

theorem sorted_axisOf (vals : List ℚ) : (axisOf vals).Sorted (· < ·) := by
  induction vals with
  | nil => simp [axisOf]
  | cons v vs ih => exact sorted_insertAxis v _ ih

theorem mem_axisOf (vals : List ℚ) (a : ℚ) : a ∈ axisOf vals ↔ a ∈ vals := by
  induction vals with
  | nil => simp [axisOf]
  | cons v vs ih =>
      simp only [axisOf, List.foldr_cons] at *
      rw [mem_insertAxis, ih, List.mem_cons]

theorem nodup_axisOf (vals : List ℚ) : (axisOf vals).Nodup :=
  (sorted_axisOf vals).nodup

/-- The axis length is the number of distinct values in the input. -/
theorem length_axisOf (vals : List ℚ) : (axisOf vals).length = vals.dedup.length := by
  have h1 : (axisOf vals).toFinset = vals.toFinset := by
    ext a
    simp [List.mem_toFinset, mem_axisOf]
  calc (axisOf vals).length = (axisOf vals).toFinset.card :=
        (List.toFinset_card_of_nodup (nodup_axisOf vals)).symm
    _ = vals.toFinset.card := by rw [h1]
    _ = vals.dedup.length := List.card_toFinset vals

/-! ## Grid Interpolation Engine (spec §4.2)

Modelled from the spec: the backend engine is not among the available
sources.  The dense fill (§4.2 step 3) uses the exact observation when one
exists, otherwise piecewise-linear barycentric interpolation over a
containing non-degenerate triangle of scatter points (the baseline
triangulation method), otherwise — target outside every triangle of the
scatter, in particular outside the convex hull — nearest-neighbor
extension by Euclidean distance.  The §4.2.6 collinear-scatter 1D
fallback shares the nearest-neighbor branch here; no property below
depends on values at interior collinear targets. -/

/-- Cross product `(a - o) × (b - o)`: twice the signed area of triangle
`o a b`. -/
def cross2 (o a b : ℚ × ℚ) : ℚ :=
  (a.1 - o.1) * (b.2 - o.2) - (a.2 - o.2) * (b.1 - o.1)

/-- Modelled from the spec: `p` lies in the non-degenerate closed triangle
`a b c` (all three edge orientations agree with the triangle's). -/
def triContains (a b c p : ℚ × ℚ) : Bool :=
  decide (cross2 a b c ≠ 0) &&
    ((decide (0 ≤ cross2 a b p) && decide (0 ≤ cross2 b c p) && decide (0 ≤ cross2 c a p)) ||
     (decide (cross2 a b p ≤ 0) && decide (cross2 b c p ≤ 0) && decide (cross2 c a p ≤ 0)))

/-- Barycentric (piecewise-linear) interpolation of the three observations
`e1 e2 e3` at target `p`. -/
def baryValue (e1 e2 e3 : ObsEntry) (p : ℚ × ℚ) : ℚ :=
  (cross2 e2.1 e3.1 p * e1.2 + cross2 e3.1 e1.1 p * e2.2 + cross2 e1.1 e2.1 p * e3.2) /
    cross2 e1.1 e2.1 e3.1

/-- Squared Euclidean distance in (rpm, load) space. -/
def sqDist (p q : ℚ × ℚ) : ℚ := (p.1 - q.1) * (p.1 - q.1) + (p.2 - q.2) * (p.2 - q.2)

/-- Modelled from the spec: the observed point closest to `p` by Euclidean
distance (squared distance compares identically). -/
def nearestObs (p : ℚ × ℚ) : List ObsEntry → Option ObsEntry
  | [] => none
  | e :: rest =>
      match nearestObs p rest with
      | none => some e
      | some b => if sqDist p e.1 ≤ sqDist p b.1 then some e else some b

/-- All ordered triples drawn from a list (the candidate triangles of the
triangulation). -/
def triplesOf (l : List ObsEntry) : List (ObsEntry × ObsEntry × ObsEntry) :=
  l.flatMap (fun a => l.flatMap (fun b => l.map (fun c => (a, b, c))))

/-- Modelled from the spec (§4.2 step 3, dense fill): exact observation
first, else barycentric interpolation over a containing triangle, else
nearest-neighbor extension. -/
def gridValue (obs : List ObsEntry) (p : ℚ × ℚ) : ℚ :=
  match lookupObs p obs with
  | some t => t
  | none =>
      match (triplesOf obs).find? (fun tr => triContains tr.1.1 tr.2.1.1 tr.2.2.1 p) with
      | some tr => baryValue tr.1 tr.2.1 tr.2.2 p
      | none =>
          match nearestObs p obs with
          | some e => e.2
          | none => 0

/-- The fatal error of §4.2 step 1. -/
inductive EngineError where
  | InsufficientAxisError
deriving DecidableEq

/-- The engine's success payload (spec §6): the response consumed by the
frontend's `ParsedMapResponse`. -/
structure MapPayload where
  rpm_axis : List ℚ
  load_axis : List ℚ
  z_grid_flat : List ℚ
  shape : Shape
  total_points : ℕ
deriving DecidableEq

/-- The RPM values of the observations, in ObservationSet order. -/
def rpmValues (obs : List ObsEntry) : List ℚ := obs.map (fun e => e.1.1)

/-- The Load values of the observations, in ObservationSet order. -/
def loadValues (obs : List ObsEntry) : List ℚ := obs.map (fun e => e.1.2)

/-- Modelled from the spec (§4.2): the Grid Interpolation Engine.  Derives
the axes, fails with `InsufficientAxisError` when either has fewer than 2
distinct values, and otherwise fills the dense grid, flattened row-major
(Load-major, RPM-minor), reporting shape and total_points. -/
def interpolateGrid (obs : List ObsEntry) : Except EngineError MapPayload :=
  if (axisOf (rpmValues obs)).length < 2 ∨ (axisOf (loadValues obs)).length < 2 then
    .error .InsufficientAxisError
  else
    .ok { rpm_axis := axisOf (rpmValues obs)
          load_axis := axisOf (loadValues obs)
          z_grid_flat := (axisOf (loadValues obs)).flatMap
            (fun l => (axisOf (rpmValues obs)).map (fun r => gridValue obs (r, l)))
          shape := ⟨(axisOf (loadValues obs)).length, (axisOf (rpmValues obs)).length⟩
          total_points := (axisOf (loadValues obs)).length * (axisOf (rpmValues obs)).length }

/-- The scatter points of an ObservationSet, as a set. -/
def obsPoints (obs : List ObsEntry) : Set (ℚ × ℚ) := {p | ∃ t, (p, t) ∈ obs}

/-! ## Indexing the flattened grid -/

theorem length_flatMap_map (ys xs : List ℚ) (f : ℚ → ℚ → ℚ) :
    (ys.flatMap (fun y => xs.map (fun x => f y x))).length = ys.length * xs.length := by
  induction ys with
  | nil => simp
  | cons y ys ih => simp [ih, Nat.succ_mul, Nat.add_comm]

theorem flatMap_map_getD (f : ℚ → ℚ → ℚ) (xs : List ℚ) :
    ∀ (ys : List ℚ) (j i : ℕ), j < ys.length → i < xs.length →
      (ys.flatMap (fun y => xs.map (fun x => f y x))).getD (j * xs.length + i) 0
        = f (ys.getD j 0) (xs.getD i 0) := by
  intro ys
  induction ys with
  | nil => intro j i hj _; exact absurd hj (by simp)
  | cons y ys ih =>
      intro j i hj hi
      match j with
      | 0 =>
          simp only [List.flatMap_cons, Nat.zero_mul, Nat.zero_add]
          rw [List.getD_eq_getElem?_getD, List.getElem?_append_left
            (by simpa using hi), List.getElem?_map, List.getElem?_eq_getElem hi]
          simp [List.getD_eq_getElem?_getD, List.getElem?_eq_getElem hi]
      | j + 1 =>
          have hjy : j < ys.length := by simpa using hj
          have harith : (j + 1) * xs.length + i = xs.length + (j * xs.length + i) := by
            ring
          simp only [List.flatMap_cons, harith]
          rw [List.getD_eq_getElem?_getD, List.getElem?_append_right (by simp)]
          simp only [List.length_map, Nat.add_sub_cancel_left]
          rw [← List.getD_eq_getElem?_getD, ih j i hjy hi]
          simp

/-- On success, the flattened grid entry at row `j`, column `i` is the dense
fill at `(rpm_axis[i], load_axis[j])`. -/
theorem interpolateGrid_flat_entry (obs : List ObsEntry) (pl : MapPayload)
    (h : interpolateGrid obs = .ok pl) (i j : ℕ)
    (hi : i < pl.shape.cols) (hj : j < pl.shape.rows) :
    pl.z_grid_flat.getD (j * pl.shape.cols + i) 0
      = gridValue obs (pl.rpm_axis.getD i 0, pl.load_axis.getD j 0) := by
  unfold interpolateGrid at h
  split at h
  · exact absurd h (by simp)
  · have hpl := (Except.ok.injEq _ _).mp h
    subst hpl
    exact flatMap_map_getD (fun l r => gridValue obs (r, l)) _ _ j i hj hi

/-! ## Triangle containment is sound for the convex hull

`triContains a b c p = true` (non-degenerate triangle, all orientation
signs agree) forces `p` into the convex hull of `{a, b, c}`: the three
edge cross products are, up to the common sign, barycentric weights. -/

theorem cross2_weight_sum (a b c p : ℚ × ℚ) :
    cross2 b c p + cross2 c a p + cross2 a b p = cross2 a b c := by
  simp only [cross2]
  ring

theorem cross2_combo_fst (a b c p : ℚ × ℚ) :
    cross2 a b c * p.1 = cross2 b c p * a.1 + cross2 c a p * b.1 + cross2 a b p * c.1 := by
  simp only [cross2]
  ring

theorem cross2_combo_snd (a b c p : ℚ × ℚ) :
    cross2 a b c * p.2 = cross2 b c p * a.2 + cross2 c a p * b.2 + cross2 a b p * c.2 := by
  simp only [cross2]
  ring

/-- A point written as a convex combination of three members of `S` lies in
the convex hull of `S`. -/
theorem mem_convexHull_of_combo (S : Set (ℚ × ℚ)) (a b c p : ℚ × ℚ)
    (w1 w2 w3 : ℚ) (h1 : 0 ≤ w1) (h2 : 0 ≤ w2) (h3 : 0 ≤ w3)
    (hpos : 0 < w1 + w2 + w3)
    (hx : (w1 + w2 + w3) * p.1 = w1 * a.1 + w2 * b.1 + w3 * c.1)
    (hy : (w1 + w2 + w3) * p.2 = w1 * a.2 + w2 * b.2 + w3 * c.2)
    (ha : a ∈ S) (hb : b ∈ S) (hc : c ∈ S) :
    p ∈ convexHull ℚ S := by
  have hne : w1 + w2 + w3 ≠ 0 := ne_of_gt hpos
  have hw : ∀ i ∈ (Finset.univ : Finset (Fin 3)), 0 ≤ (![w1, w2, w3]) i := by
    intro i _
    fin_cases i <;> assumption
  have hsum : ∑ i ∈ (Finset.univ : Finset (Fin 3)), (![w1, w2, w3]) i = w1 + w2 + w3 := by
    rw [Fin.sum_univ_three]
    rfl
  have hws : 0 < ∑ i ∈ (Finset.univ : Finset (Fin 3)), (![w1, w2, w3]) i := by
    rw [hsum]; exact hpos
  have hz : ∀ i ∈ (Finset.univ : Finset (Fin 3)), (![a, b, c]) i ∈ S := by
    intro i _
    fin_cases i <;> assumption
  have hcm : (Finset.univ : Finset (Fin 3)).centerMass (![w1, w2, w3]) (![a, b, c]) = p := by
    simp only [Finset.centerMass, Fin.sum_univ_three, Matrix.cons_val_zero,
      Matrix.cons_val_one, Matrix.head_cons, Matrix.cons_val_two, Matrix.tail_cons]
    apply Prod.ext
    · simp only [Prod.smul_fst, Prod.fst_add, smul_eq_mul]
      rw [← hx, inv_mul_cancel_left₀ hne]
    · simp only [Prod.smul_snd, Prod.snd_add, smul_eq_mul]
      rw [← hy, inv_mul_cancel_left₀ hne]
  rw [← hcm]
  exact Finset.centerMass_mem_convexHull (Finset.univ : Finset (Fin 3)) hw hws hz

/-- Soundness of the triangle test: containment in a non-degenerate
triangle of members of `S` puts the target in the convex hull of `S`. -/
theorem mem_convexHull_of_triContains (S : Set (ℚ × ℚ)) (a b c p : ℚ × ℚ)
    (h : triContains a b c p = true) (ha : a ∈ S) (hb : b ∈ S) (hc : c ∈ S) :
    p ∈ convexHull ℚ S := by
  have h' := h
  simp only [triContains, Bool.and_eq_true, Bool.or_eq_true, decide_eq_true_eq] at h'
  obtain ⟨hnz, hsigns⟩ := h'
  have hsum := cross2_weight_sum a b c p
  have hx := cross2_combo_fst a b c p
  have hy := cross2_combo_snd a b c p
  rcases hsigns with ⟨⟨hd1, hd2⟩, hd3⟩ | ⟨⟨hd1, hd2⟩, hd3⟩
  · -- all orientations nonnegative: the cross products are the weights
    have hpos : 0 < cross2 b c p + cross2 c a p + cross2 a b p := by
      have hge : (0 : ℚ) ≤ cross2 b c p + cross2 c a p + cross2 a b p := by linarith
      have hne0 : cross2 b c p + cross2 c a p + cross2 a b p ≠ 0 := fun h0 => hnz (by
        rw [← hsum]; exact h0)
      exact lt_of_le_of_ne hge (Ne.symm hne0)
    exact mem_convexHull_of_combo S a b c p _ _ _ hd2 hd3 hd1 hpos
      (by linear_combination hx + p.1 * hsum) (by linear_combination hy + p.2 * hsum) ha hb hc
  · -- all orientations nonpositive: negate the weights
    have hpos : 0 < -cross2 b c p + -cross2 c a p + -cross2 a b p := by
      have hge : (0 : ℚ) ≤ -cross2 b c p + -cross2 c a p + -cross2 a b p := by linarith
      have hne0 : -cross2 b c p + -cross2 c a p + -cross2 a b p ≠ 0 := fun h0 => hnz (by
        have : cross2 b c p + cross2 c a p + cross2 a b p = 0 := by linarith
        rw [← hsum]; exact this)
      exact lt_of_le_of_ne hge (Ne.symm hne0)
    exact mem_convexHull_of_combo S a b c p _ _ _ (by linarith) (by linarith) (by linarith) hpos
      (by linear_combination -hx - p.1 * hsum) (by linear_combination -hy - p.2 * hsum) ha hb hc

/-! ## Nearest-neighbor and lookup lemmas -/

theorem nearestObs_mem (p : ℚ × ℚ) (obs : List ObsEntry) (e : ObsEntry)
    (h : nearestObs p obs = some e) : e ∈ obs := by
  induction obs with
  | nil => simp [nearestObs] at h
  | cons x rest ih =>
      simp only [nearestObs] at h
      rcases hrest : nearestObs p rest with _ | b
      · simp only [hrest, Option.some.injEq] at h
        subst h
        exact List.mem_cons_self _ _
      · simp only [hrest] at h
        by_cases hle : sqDist p x.1 ≤ sqDist p b.1
        · rw [if_pos hle] at h
          simp only [Option.some.injEq] at h
          subst h
          exact List.mem_cons_self _ _
        · rw [if_neg hle] at h
          simp only [Option.some.injEq] at h
          subst h
          exact List.mem_cons_of_mem _ (ih hrest)

theorem nearestObs_strict (p : ℚ × ℚ) (obs : List ObsEntry) (q : ObsEntry)
    (hq : q ∈ obs) (hstrict : ∀ r ∈ obs, r ≠ q → sqDist p q.1 < sqDist p r.1) :
    nearestObs p obs = some q := by
  induction obs with
  | nil => simp at hq
  | cons x rest ih =>
      rcases List.mem_cons.mp hq with rfl | hqrest
      · -- head is the strict minimizer
        rcases hrest : nearestObs p rest with _ | b
        · simp [nearestObs, hrest]
        · have hb : b ∈ rest := nearestObs_mem p rest b hrest
          by_cases hbq : b = q
          · subst hbq
            simp [nearestObs, hrest]
          · have := hstrict b (List.mem_cons_of_mem _ hb) hbq
            simp only [nearestObs, hrest]
            rw [if_pos (le_of_lt this)]
      · -- the minimizer sits in the tail
        by_cases hxq : x = q
        · subst hxq
          rcases hrest : nearestObs p rest with _ | b
          · simp [nearestObs, hrest]
          · have hb : b ∈ rest := nearestObs_mem p rest b hrest
            by_cases hbq : b = x
            · subst hbq
              simp [nearestObs, hrest]
            · have := hstrict b (List.mem_cons_of_mem _ hb) hbq
              simp only [nearestObs, hrest]
              rw [if_pos (le_of_lt this)]
        · have hrest : nearestObs p rest = some q :=
            ih hqrest (fun r hr hrq => hstrict r (List.mem_cons_of_mem _ hr) hrq)
          simp only [nearestObs, hrest]
          have hxfar := hstrict x (List.mem_cons_self _ _) hxq
          rw [if_neg (not_le.mpr hxfar)]

theorem lookupObs_eq_none (k : ℚ × ℚ) (obs : List ObsEntry)
    (h : ∀ e ∈ obs, e.1 ≠ k) : lookupObs k obs = none := by
  unfold lookupObs
  rw [List.find?_eq_none.mpr]
  · rfl
  · intro e he
    simp [h e he]

theorem lookupObs_eq_some_of_mem (k : ℚ × ℚ) (t : ℚ) (obs : List ObsEntry)
    (hnd : (obs.map (fun e => e.1)).Nodup) (hmem : (k, t) ∈ obs) :
    lookupObs k obs = some t := by
  induction obs with
  | nil => simp at hmem
  | cons x rest ih =>
      have hnd' : (rest.map (fun e => e.1)).Nodup := (List.nodup_cons.mp hnd).2
      rcases List.mem_cons.mp hmem with rfl | hmemrest
      · simp [lookupObs, List.find?_cons]
      · have hxk : x.1 ≠ k := by
          intro hk
          have hmk : k ∈ rest.map (fun e => e.1) := List.mem_map.mpr ⟨(k, t), hmemrest, rfl⟩
          have hnotin := (List.nodup_cons.mp hnd).1
          simp only at hnotin
          rw [hk] at hnotin
          exact hnotin hmk
        have := ih hnd' hmemrest
        simpa [lookupObs, List.find?_cons, hxk] using this

/-- The first branch of the dense fill: the grid value at an exactly
observed key is that observation's timing. -/
theorem gridValue_of_mem (obs : List ObsEntry) (k : ℚ × ℚ) (t : ℚ)
    (hnd : (obs.map (fun e => e.1)).Nodup) (hmem : (k, t) ∈ obs) :
    gridValue obs k = t := by
  unfold gridValue
  rw [lookupObs_eq_some_of_mem k t obs hnd hmem]

/-- Outside the convex hull of the scatter (and away from every exact
observation) the dense fill is the nearest-neighbor extension: the timing
of the unique closest observed point. -/
theorem gridValue_of_notin_hull (obs : List ObsEntry) (p : ℚ × ℚ)
    (hex : lookupObs p obs = none)
    (hhull : p ∉ convexHull ℚ (obsPoints obs))
    (q : ObsEntry) (hq : q ∈ obs)
    (hstrict : ∀ r ∈ obs, r ≠ q → sqDist p q.1 < sqDist p r.1) :
    gridValue obs p = q.2 := by
  have hfind : (triplesOf obs).find? (fun tr => triContains tr.1.1 tr.2.1.1 tr.2.2.1 p)
      = none := by
    rw [List.find?_eq_none]
    intro tr htr hcont
    have hmem3 : tr.1 ∈ obs ∧ tr.2.1 ∈ obs ∧ tr.2.2 ∈ obs := by
      simp only [triplesOf, List.mem_flatMap, List.mem_map] at htr
      obtain ⟨a, ha, b, hb, c, hc, heq⟩ := htr
      subst heq
      exact ⟨ha, hb, hc⟩
    exact hhull (mem_convexHull_of_triContains (obsPoints obs) tr.1.1 tr.2.1.1 tr.2.2.1 p
      hcont ⟨tr.1.2, hmem3.1⟩ ⟨tr.2.1.2, hmem3.2.1⟩ ⟨tr.2.2.2, hmem3.2.2⟩)
  unfold gridValue
  rw [hex, hfind, nearestObs_strict p obs q hq hstrict]

/-! ## Normalizer invariants -/

theorem hasKey_iff (k : ℚ × ℚ) (obs : List ObsEntry) :
    hasKey k obs = true ↔ ∃ e ∈ obs, e.1 = k := by
  simp [hasKey, List.any_eq_true]

theorem keys_upsert_mem (k : ℚ × ℚ) (t : ℚ) (obs : List ObsEntry) (a : ℚ × ℚ) :
    a ∈ (upsert k t obs).map (fun e => e.1) ↔ a = k ∨ a ∈ obs.map (fun e => e.1) := by
  induction obs with
  | nil => simp [upsert]
  | cons e rest ih =>
      by_cases hek : e.1 = k
      · subst hek
        rw [show upsert e.1 t (e :: rest) = (e.1, t) :: rest from by simp [upsert]]
        simp only [List.map_cons, List.mem_cons]
        tauto
      · simp only [upsert, if_neg hek, List.map_cons, List.mem_cons, ih]
        tauto

theorem keys_upsert_nodup (k : ℚ × ℚ) (t : ℚ) (obs : List ObsEntry)
    (hnd : (obs.map (fun e => e.1)).Nodup) :
    ((upsert k t obs).map (fun e => e.1)).Nodup := by
  induction obs with
  | nil => simp [upsert]
  | cons e rest ih =>
      obtain ⟨hnotin, hrest⟩ := List.nodup_cons.mp hnd
      by_cases hek : e.1 = k
      · subst hek
        rw [show upsert e.1 t (e :: rest) = (e.1, t) :: rest from by simp [upsert]]
        simp only [List.map_cons]
        refine List.nodup_cons.mpr ⟨?_, hrest⟩
        simpa using hnotin
      · simp only [upsert, if_neg hek, List.map_cons]
        refine List.nodup_cons.mpr ⟨?_, ih hrest⟩
        intro hin
        rcases (keys_upsert_mem k t rest _).mp hin with h | h
        · exact hek h
        · exact hnotin h

theorem lookupObs_upsert (k : ℚ × ℚ) (t : ℚ) (obs : List ObsEntry) :
    lookupObs k (upsert k t obs) = some t := by
  induction obs with
  | nil => simp [upsert, lookupObs]
  | cons e rest ih =>
      by_cases hek : e.1 = k
      · subst hek
        rw [show upsert e.1 t (e :: rest) = (e.1, t) :: rest from by simp [upsert]]
        simp [lookupObs, List.find?_cons]
      · simp only [upsert, if_neg hek]
        simpa [lookupObs, List.find?_cons, hek] using ih

theorem normRow_keys_nodup (s : NormState) (r : RawRow)
    (h : (s.obs.map (fun e => e.1)).Nodup) :
    ((normRow s r).obs.map (fun e => e.1)).Nodup := by
  obtain ⟨rpm, load, timing⟩ := r
  cases rpm <;> cases load <;> cases timing <;>
    simp [normRow, h, keys_upsert_nodup]

theorem foldl_normRow_keys_nodup (rows : List RawRow) (s : NormState)
    (h : (s.obs.map (fun e => e.1)).Nodup) :
    ((rows.foldl normRow s).obs.map (fun e => e.1)).Nodup := by
  induction rows generalizing s with
  | nil => exact h
  | cons r rest ih => exact ih (normRow s r) (normRow_keys_nodup s r h)

/-- The ObservationSet built by the normalizer has unique keys (spec §3). -/
theorem normalize_keys_nodup (rows : List RawRow) :
    ((normalize rows).obs.map (fun e => e.1)).Nodup :=
  foldl_normRow_keys_nodup rows ⟨[], 0, 0, 0⟩ (by simp)

theorem mem_upsert_self (k : ℚ × ℚ) (t : ℚ) (obs : List ObsEntry) :
    (k, t) ∈ upsert k t obs := by
  induction obs with
  | nil => simp [upsert]
  | cons e rest ih =>
      by_cases hek : e.1 = k
      · subst hek
        rw [show upsert e.1 t (e :: rest) = (e.1, t) :: rest from by simp [upsert]]
        exact List.mem_cons_self _ _
      · simp only [upsert, if_neg hek]
        exact List.mem_cons_of_mem _ ih

theorem rowMajor_index_lt (j i rows cols : ℕ) (hj : j < rows) (hi : i < cols) :
    j * cols + i < rows * cols := by
  have hmul : (j + 1) * cols ≤ rows * cols := Nat.mul_le_mul_right cols hj
  rw [Nat.succ_mul] at hmul
  omega

/-! ## Concrete data for the witnesses (spec §8 scenarios) -/

/-- The 2×2 all-exact ObservationSet of spec §8. -/
def obsDemo : List ObsEntry :=
  [((1000, 20), 3), ((2000, 20), 4), ((1000, 40), 5), ((2000, 40), 6)]

/-- The engine output on `obsDemo`. -/
def payloadDemo : MapPayload :=
  { rpm_axis := [1000, 2000], load_axis := [20, 40], z_grid_flat := [3, 4, 5, 6],
    shape := ⟨2, 2⟩, total_points := 4 }

/-- The raw rows producing `obsDemo`. -/
def rowsDemo : List RawRow :=
  [⟨some 1000, some 20, some 3⟩, ⟨some 2000, some 20, some 4⟩,
   ⟨some 1000, some 40, some 5⟩, ⟨some 2000, some 40, some 6⟩]

/-- Engine output after a duplicate row `(1000, 20) ↦ 7` overwrites `obsDemo`. -/
def payloadDemoDup : MapPayload :=
  { rpm_axis := [1000, 2000], load_axis := [20, 40], z_grid_flat := [7, 4, 5, 6],
    shape := ⟨2, 2⟩, total_points := 4 }

/-- Three scatter points whose convex hull misses the grid corner `(2, 1)`. -/
def obsExtra : List ObsEntry := [((0, 0), 10), ((2, 0), 20), ((0, 1), 30)]

/-- The engine output on `obsExtra`: the corner cell is filled by the
nearest neighbor `(2, 0) ↦ 20`. -/
def payloadExtra : MapPayload :=
  { rpm_axis := [0, 2], load_axis := [0, 1], z_grid_flat := [10, 20, 30, 20],
    shape := ⟨2, 2⟩, total_points := 4 }

/-- A single distinct RPM value: the `InsufficientAxisError` scenario of §8. -/
def obsOneRpm : List ObsEntry := [((1000, 20), 3), ((1000, 40), 5)]

/-- The grid corner `(2, 1)` lies outside the convex hull of the `obsExtra`
scatter: the halfplane `x + 2y ≤ 2` contains all three points but not it. -/
theorem outside_hull_extra : ((2 : ℚ), (1 : ℚ)) ∉ convexHull ℚ (obsPoints obsExtra) := by
  intro hmem
  have hlin : IsLinearMap ℚ (fun w : ℚ × ℚ => w.1 + 2 * w.2) := by
    constructor
    · intro u v
      simp only [Prod.fst_add, Prod.snd_add]
      ring
    · intro c u
      simp only [Prod.smul_fst, Prod.smul_snd, smul_eq_mul]
      ring
  have hsub : obsPoints obsExtra ⊆ {w : ℚ × ℚ | w.1 + 2 * w.2 ≤ 2} := by
    rintro ⟨a, b⟩ ⟨t, ht⟩
    simp only [obsExtra, List.mem_cons, List.mem_singleton, Prod.mk.injEq,
      List.not_mem_nil, or_false] at ht
    rcases ht with ⟨⟨ha, hb⟩, _⟩ | ⟨⟨ha, hb⟩, _⟩ | ⟨⟨ha, hb⟩, _⟩ <;>
      subst ha <;> subst hb <;> norm_num
  have hhalf := convexHull_min hsub (convex_halfSpace_le hlin 2)
  have hin := hhalf hmem
  norm_num at hin

/-! ## The claims -/

/-- C1: for every observed (rpm, load) pair in the input ObservationSet
(unique keys, per the §3 invariant), the produced grid value at the axis
intersection (rpm, load) — row `j` holding `load` on the Load axis, column
`i` holding `rpm` on the RPM axis — equals that observation's Timing value
exactly; interpolation never overwrites a known sample. -/
theorem c1_grid_exact_at_observed (obs : List ObsEntry) (pl : MapPayload)
    (hnd : (obs.map (fun e => e.1)).Nodup)
    (h : interpolateGrid obs = .ok pl)
    (rpm load t : ℚ) (hmem : ((rpm, load), t) ∈ obs)
    (i j : ℕ) (hi : i < pl.shape.cols) (hj : j < pl.shape.rows)
    (hr : pl.rpm_axis.getD i 0 = rpm) (hl : pl.load_axis.getD j 0 = load) :
    pl.z_grid_flat.getD (j * pl.shape.cols + i) 0 = t := by
  rw [interpolateGrid_flat_entry obs pl h i j hi hj, hr, hl]
  exact gridValue_of_mem obs (rpm, load) t hnd hmem

theorem c1_grid_exact_at_observed_witness :
    payloadDemo.z_grid_flat.getD (0 * payloadDemo.shape.cols + 0) 0 = 3 :=
  c1_grid_exact_at_observed obsDemo payloadDemo (by decide)
    (by with_unfolding_all rfl) 1000 20 3 (by decide) 0 0
    (by decide) (by decide) (by decide) (by decide)

/-- C2: appending a row whose (RPM, Load) key already occurs in the
ObservationSet built from the earlier rows keeps the later row's Timing
(last-write-wins) — both in the ObservationSet and in the produced grid at
that key's axis intersection — and increments rows_deduplicated by
exactly 1. -/
theorem c2_last_write_wins_dedup (xs : List RawRow) (rpm load t : ℚ)
    (hdup : hasKey (rpm, load) (normalize xs).obs = true) :
    (normalize (xs ++ [⟨some rpm, some load, some t⟩])).rows_deduplicated
        = (normalize xs).rows_deduplicated + 1 ∧
    lookupObs (rpm, load) (normalize (xs ++ [⟨some rpm, some load, some t⟩])).obs = some t ∧
    ∀ (pl : MapPayload),
      interpolateGrid (normalize (xs ++ [⟨some rpm, some load, some t⟩])).obs = .ok pl →
      ∀ (i j : ℕ), i < pl.shape.cols → j < pl.shape.rows →
        pl.rpm_axis.getD i 0 = rpm → pl.load_axis.getD j 0 = load →
        pl.z_grid_flat.getD (j * pl.shape.cols + i) 0 = t := by
  have hsplit : normalize (xs ++ [⟨some rpm, some load, some t⟩])
      = normRow (normalize xs) ⟨some rpm, some load, some t⟩ := by
    unfold normalize
    rw [List.foldl_append]
    rfl
  have hrow : normRow (normalize xs) ⟨some rpm, some load, some t⟩
      = { normalize xs with
          obs := upsert (rpm, load) t (normalize xs).obs
          total_rows_seen := (normalize xs).total_rows_seen + 1
          rows_deduplicated := (normalize xs).rows_deduplicated + 1 } := by
    simp [normRow, hdup]
  rw [hsplit, hrow]
  refine ⟨rfl, lookupObs_upsert _ _ _, ?_⟩
  intro pl hok i j hi hj hr hl
  rw [interpolateGrid_flat_entry _ pl hok i j hi hj, hr, hl]
  exact gridValue_of_mem _ _ t
    (keys_upsert_nodup _ _ _ (normalize_keys_nodup xs))
    (mem_upsert_self _ _ _)

theorem c2_last_write_wins_dedup_witness :
    (normalize (rowsDemo ++ [⟨some 1000, some 20, some 7⟩])).rows_deduplicated
        = (normalize rowsDemo).rows_deduplicated + 1 ∧
    lookupObs (1000, 20) (normalize (rowsDemo ++ [⟨some 1000, some 20, some 7⟩])).obs
        = some 7 ∧
    payloadDemoDup.z_grid_flat.getD (0 * payloadDemoDup.shape.cols + 0) 0 = 7 := by
  have h := c2_last_write_wins_dedup rowsDemo 1000 20 7 (by decide)
  exact ⟨h.1, h.2.1,
    h.2.2 payloadDemoDup (by with_unfolding_all rfl) 0 0
      (by decide) (by decide) (by decide) (by decide)⟩

/-- C3: on every successful result, the flattened grid's length equals
shape.rows * shape.cols, equals total_points, with shape.rows the Load-axis
length and shape.cols the RPM-axis length. -/
theorem c3_flat_length_eq_shape (obs : List ObsEntry) (pl : MapPayload)
    (h : interpolateGrid obs = .ok pl) :
    pl.z_grid_flat.length = pl.shape.rows * pl.shape.cols ∧
    pl.z_grid_flat.length = pl.total_points ∧
    pl.shape.rows = pl.load_axis.length ∧ pl.shape.cols = pl.rpm_axis.length := by
  unfold interpolateGrid at h
  split at h
  · exact absurd h (by simp)
  · have hpl := (Except.ok.injEq _ _).mp h
    subst hpl
    exact ⟨length_flatMap_map _ _ _, length_flatMap_map _ _ _, rfl, rfl⟩

theorem c3_flat_length_eq_shape_witness :
    payloadDemo.z_grid_flat.length = payloadDemo.shape.rows * payloadDemo.shape.cols ∧
    payloadDemo.z_grid_flat.length = payloadDemo.total_points ∧
    payloadDemo.shape.rows = payloadDemo.load_axis.length ∧
    payloadDemo.shape.cols = payloadDemo.rpm_axis.length :=
  c3_flat_length_eq_shape obsDemo payloadDemo (by with_unfolding_all rfl)

/-- C4: on every successful result, rpm_axis and load_axis are strictly
increasing with no duplicates, and each lists exactly the distinct RPM,
respectively Load, values present in the ObservationSet. -/
theorem c4_axes_strictly_increasing (obs : List ObsEntry) (pl : MapPayload)
    (h : interpolateGrid obs = .ok pl) :
    pl.rpm_axis.Sorted (· < ·) ∧ pl.load_axis.Sorted (· < ·) ∧
    pl.rpm_axis.Nodup ∧ pl.load_axis.Nodup ∧
    (∀ x, x ∈ pl.rpm_axis ↔ x ∈ rpmValues obs) ∧
    (∀ x, x ∈ pl.load_axis ↔ x ∈ loadValues obs) := by
  unfold interpolateGrid at h
  split at h
  · exact absurd h (by simp)
  · have hpl := (Except.ok.injEq _ _).mp h
    subst hpl
    exact ⟨sorted_axisOf _, sorted_axisOf _, nodup_axisOf _, nodup_axisOf _,
      fun x => mem_axisOf _ x, fun x => mem_axisOf _ x⟩

theorem c4_axes_strictly_increasing_witness :
    payloadDemo.rpm_axis.Sorted (· < ·) ∧ payloadDemo.load_axis.Sorted (· < ·) ∧
    payloadDemo.rpm_axis.Nodup ∧ payloadDemo.load_axis.Nodup ∧
    (∀ x, x ∈ payloadDemo.rpm_axis ↔ x ∈ rpmValues obsDemo) ∧
    (∀ x, x ∈ payloadDemo.load_axis ↔ x ∈ loadValues obsDemo) :=
  c4_axes_strictly_increasing obsDemo payloadDemo (by with_unfolding_all rfl)

/-- C5: whenever the ObservationSet has fewer than 2 distinct RPM values or
fewer than 2 distinct Load values, the engine fails with
InsufficientAxisError and produces no grid. -/
theorem c5_insufficient_axis_error (obs : List ObsEntry)
    (h : (rpmValues obs).dedup.length < 2 ∨ (loadValues obs).dedup.length < 2) :
    interpolateGrid obs = .error .InsufficientAxisError := by
  unfold interpolateGrid
  have hc : (axisOf (rpmValues obs)).length < 2 ∨ (axisOf (loadValues obs)).length < 2 := by
    rcases h with h | h
    · exact Or.inl (by rw [length_axisOf]; exact h)
    · exact Or.inr (by rw [length_axisOf]; exact h)
  rw [if_pos hc]

theorem c5_insufficient_axis_error_witness :
    interpolateGrid obsOneRpm = .error .InsufficientAxisError :=
  c5_insufficient_axis_error obsOneRpm (by decide)

/-- C6: a grid cell whose (rpm, load) target is not an exact observation
and lies outside the convex hull of the scatter points receives the Timing
of the observed point strictly closest to it by Euclidean distance (squared
distance compares identically), not a linearly extrapolated value. -/
theorem c6_outside_hull_nearest_neighbor (obs : List ObsEntry) (pl : MapPayload)
    (h : interpolateGrid obs = .ok pl)
    (i j : ℕ) (hi : i < pl.shape.cols) (hj : j < pl.shape.rows)
    (p : ℚ × ℚ) (hp : p = (pl.rpm_axis.getD i 0, pl.load_axis.getD j 0))
    (hex : lookupObs p obs = none)
    (hhull : p ∉ convexHull ℚ (obsPoints obs))
    (q : ObsEntry) (hq : q ∈ obs)
    (hstrict : ∀ r ∈ obs, r ≠ q → sqDist p q.1 < sqDist p r.1) :
    pl.z_grid_flat.getD (j * pl.shape.cols + i) 0 = q.2 := by
  rw [interpolateGrid_flat_entry obs pl h i j hi hj, ← hp]
  exact gridValue_of_notin_hull obs p hex hhull q hq hstrict

theorem c6_outside_hull_nearest_neighbor_witness :
    payloadExtra.z_grid_flat.getD (1 * payloadExtra.shape.cols + 1) 0 = 20 :=
  c6_outside_hull_nearest_neighbor obsExtra payloadExtra
    (by with_unfolding_all rfl) 1 1 (by decide) (by decide)
    (2, 1) (by decide) (by decide) outside_hull_extra
    ((2, 0), 20) (by decide) (of_decide_eq_true (by with_unfolding_all rfl))

/-- C7: when flat.length = rows * cols, reshapeGrid returns exactly `rows`
rows of length `cols` with grid[i][j] = flat[i * cols + j], and
concatenating its rows in order restores flat — reshapeGrid inverts the
row-major (Load-major, RPM-minor) flattening. -/
theorem c7_reshape_inverts_row_major_flatten (flat : List ℚ) (rows cols : ℕ)
    (hlen : flat.length = rows * cols) :
    (reshapeGrid flat rows cols).length = rows ∧
    (∀ row ∈ reshapeGrid flat rows cols, row.length = cols) ∧
    (∀ i j, i < rows → j < cols →
      ((reshapeGrid flat rows cols).getD i []).getD j 0 = flat.getD (i * cols + j) 0) ∧
    (reshapeGrid flat rows cols).flatten = flat := by
  refine ⟨length_reshapeGrid flat rows cols, ?_, ?_, ?_⟩
  · intro row hrow
    simp only [reshapeGrid, List.mem_map, List.mem_range] at hrow
    obtain ⟨i, hi, rfl⟩ := hrow
    simp only [List.length_take, List.length_drop, hlen]
    have hmul : (i + 1) * cols ≤ rows * cols := Nat.mul_le_mul_right cols hi
    rw [Nat.succ_mul] at hmul
    omega
  · intro i j hi hj
    exact reshapeGrid_entry flat rows cols i j hi hj
      (by rw [hlen]; exact rowMajor_index_lt i j rows cols hi hj)
  · rw [flatten_reshapeGrid, ← hlen, List.take_length]

theorem c7_reshape_inverts_row_major_flatten_witness :
    ([4, 5, 6] : List ℚ).length = 3 ∧
    ((reshapeGrid [1, 2, 3, 4, 5, 6] 2 3).getD 1 []).getD 2 0
        = ([1, 2, 3, 4, 5, 6] : List ℚ).getD (1 * 3 + 2) 0 ∧
    (reshapeGrid [1, 2, 3, 4, 5, 6] 2 3).flatten = [1, 2, 3, 4, 5, 6] ∧
    (reshapeGrid [1, 2, 3, 4, 5, 6] 2 3).length = 2 := by
  have h := c7_reshape_inverts_row_major_flatten [1, 2, 3, 4, 5, 6] 2 3 (by decide)
  exact ⟨h.2.1 [4, 5, 6] (by decide), h.2.2.1 1 2 (by decide) (by decide),
    h.2.2.2, h.1⟩

/-- C8: transformToPlotlySurface returns a surface whose x is rpm_axis, y
is load_axis, and z is reshapeGrid of z_grid_flat by the shape, so that
(given the C3 length invariant) z[j][i] = z_grid_flat[j * shape.cols + i]:
row index is Load-axis position, column index RPM-axis position. -/
theorem c8_transform_to_plotly_surface (m : ParsedMapResponse)
    (hlen : m.z_grid_flat.length = m.shape.rows * m.shape.cols) :
    (transformToPlotlySurface m).x = m.rpm_axis ∧
    (transformToPlotlySurface m).y = m.load_axis ∧
    (transformToPlotlySurface m).z = reshapeGrid m.z_grid_flat m.shape.rows m.shape.cols ∧
    ∀ j i, j < m.shape.rows → i < m.shape.cols →
      (((transformToPlotlySurface m).z.getD j []).getD i 0)
        = m.z_grid_flat.getD (j * m.shape.cols + i) 0 := by
  refine ⟨rfl, rfl, rfl, ?_⟩
  intro j i hj hi
  show ((reshapeGrid m.z_grid_flat m.shape.rows m.shape.cols).getD j []).getD i 0 = _
  exact reshapeGrid_entry m.z_grid_flat m.shape.rows m.shape.cols j i hj hi
    (by rw [hlen]; exact rowMajor_index_lt j i m.shape.rows m.shape.cols hj hi)

theorem c8_transform_to_plotly_surface_witness :
    (transformToPlotlySurface ⟨[1000, 2000], [20, 40], [3, 4, 5, 6], ⟨2, 2⟩, 4⟩).x
        = [1000, 2000] ∧
    (transformToPlotlySurface ⟨[1000, 2000], [20, 40], [3, 4, 5, 6], ⟨2, 2⟩, 4⟩).y
        = [20, 40] ∧
    (transformToPlotlySurface ⟨[1000, 2000], [20, 40], [3, 4, 5, 6], ⟨2, 2⟩, 4⟩).z
        = reshapeGrid [3, 4, 5, 6] 2 2 ∧
    (((transformToPlotlySurface ⟨[1000, 2000], [20, 40], [3, 4, 5, 6], ⟨2, 2⟩, 4⟩).z.getD
        1 []).getD 0 0)
        = ([3, 4, 5, 6] : List ℚ).getD (1 * 2 + 0) 0 := by
  have h := c8_transform_to_plotly_surface ⟨[1000, 2000], [20, 40], [3, 4, 5, 6], ⟨2, 2⟩, 4⟩
    (by decide)
  exact ⟨h.1, h.2.1, h.2.2.1, h.2.2.2 1 0 (by decide) (by decide)⟩

/-- C9: reshapeGrid is total and validates nothing: it always returns
exactly `rows` rows; row `i` has length min cols (flat.length - i * cols)
(short or empty when flat is too short, since slice clamps); and the rows
together carry exactly the first rows * cols elements, so excess elements
of a too-long flat are silently dropped. -/
theorem c9_reshape_total_no_validation (flat : List ℚ) (rows cols : ℕ) :
    (reshapeGrid flat rows cols).length = rows ∧
    (∀ i, i < rows → ((reshapeGrid flat rows cols).getD i []).length
        = min cols (flat.length - i * cols)) ∧
    (reshapeGrid flat rows cols).flatten = flat.take (rows * cols) :=
  ⟨length_reshapeGrid flat rows cols,
   fun i hi => reshapeGrid_row_length flat rows cols i hi,
   flatten_reshapeGrid flat rows cols⟩

theorem c9_reshape_total_no_validation_witness :
    (reshapeGrid [1, 2, 3] 3 2).length = 3 ∧
    ((reshapeGrid [1, 2, 3] 3 2).getD 1 []).length = min 2 (([1, 2, 3] : List ℚ).length - 1 * 2) ∧
    ((reshapeGrid [1, 2, 3] 3 2).getD 2 []).length = min 2 (([1, 2, 3] : List ℚ).length - 2 * 2) ∧
    (reshapeGrid [1, 2, 3, 4, 5] 2 2).flatten = ([1, 2, 3, 4, 5] : List ℚ).take (2 * 2) := by
  have h3 := c9_reshape_total_no_validation [1, 2, 3] 3 2
  have h5 := c9_reshape_total_no_validation [1, 2, 3, 4, 5] 2 2
  exact ⟨h3.1, h3.2.1 1 (by decide), h3.2.1 2 (by decide), h5.2.2⟩

/-- C10: parseMapFile never surfaces a raw transport failure: an HTTP error
response with a non-empty detail string throws that detail; an HTTP error
response without one (absent or empty, which JS `||` treats as falsy)
throws "Server error: <status>"; a request with no response throws the
network-error message; and no failure outcome ever resolves successfully
with a partial result. -/
theorem c10_parse_map_file_error_mapping :
    (∀ (status : ℕ) (d : String), d ≠ "" →
        parseMapFile (.axiosHttpError status (some d)) = .error d) ∧
    (∀ (status : ℕ),
        parseMapFile (.axiosHttpError status none)
          = .error ("Server error: " ++ toString status)) ∧
    (∀ (status : ℕ),
        parseMapFile (.axiosHttpError status (some ""))
          = .error ("Server error: " ++ toString status)) ∧
    parseMapFile .axiosNetworkError
        = .error "Network error: Could not reach the backend server" ∧
    (∀ (o : UploadOutcome), (∀ p, o ≠ .success p) →
        ∃ msg, parseMapFile o = .error msg) := by
  refine ⟨?_, fun _ => rfl, fun _ => rfl, rfl, ?_⟩
  · intro status d hd
    simp [parseMapFile, hd]
  · intro o ho
    cases o with
    | success p => exact absurd rfl (ho p)
    | axiosHttpError status detail =>
        cases detail with
        | none => exact ⟨_, rfl⟩
        | some d =>
            by_cases hd : d = ""
            · subst hd
              exact ⟨"Server error: " ++ toString status, by simp [parseMapFile]⟩
            · exact ⟨d, by simp [parseMapFile, hd]⟩
    | axiosNetworkError => exact ⟨_, rfl⟩
    | axiosSetupError message => exact ⟨message, rfl⟩
    | nonAxiosThrown message isErrorInstance =>
        cases isErrorInstance
        · exact ⟨_, rfl⟩
        · exact ⟨message, rfl⟩

theorem c10_parse_map_file_error_mapping_witness :
    parseMapFile (.axiosHttpError 422 (some "Missing required column")) =
        .error "Missing required column" ∧
    parseMapFile (.axiosHttpError 500 none) = .error ("Server error: " ++ toString 500) ∧
    parseMapFile (.axiosHttpError 500 (some "")) = .error ("Server error: " ++ toString 500) ∧
    (∃ msg, parseMapFile .axiosNetworkError = .error msg) := by
  have h := c10_parse_map_file_error_mapping
  exact ⟨h.1 422 "Missing required column" (by decide), h.2.1 500, h.2.2.1 500,
    h.2.2.2.2 .axiosNetworkError (fun p => by simp)⟩

end CarTuning
